import Mathlib

/-
  Verification development for the Industrial Telemetry Analytics Platform
  (ITAP).  The dashboard (TypeScript) sources are embedded directly; the
  alert rule engine is not shipped in this tree (only its tests and
  documentation are), so its components are modelled from the specification
  where marked.
-/

namespace ITAP

/-
  JSON values, the input domain of the zod validators used at the
  downstream consumption boundary (src/itap-dashboard/src/lib/schemas).
-/

inductive Json where
  | null
  | bool (b : Bool)
  | num (q : Rat)
  | str (s : String)
  | arr (items : List Json)
  | obj (fields : List (String × Json))

/-- Record produced by a successful AlertSchema parse
    (src/itap-dashboard/src/lib/schemas/alerts.ts). -/
structure Alert where
  timestamp_utc : String
  device_id : String
  severity : String
  route : String
  message : String
deriving DecidableEq

/-- Field access on a JSON object, as zod resolves keys of z.object. -/
def getField (fields : List (String × Json)) (key : String) : Option Json :=
  (fields.find? (fun kv => kv.1 == key)).map (fun kv => kv.2)

/-- The z.string() validator. -/
def zodString : Json → Option String
  | .str s => some s
  | _ => none

/-- The z.enum(["INFO", "WARNING", "CRITICAL"]) validator. -/
def zodSeverityEnum : Json → Option String
  | .str s => if s = "INFO" ∨ s = "WARNING" ∨ s = "CRITICAL" then some s else none
  | _ => none

/-- The z.union([a, b]) validator: try the first branch, fall back to the
    second. -/
def zodUnion (first other : Json → Option String) (j : Json) : Option String :=
  match first j with
  | some v => some v
  | none => other j

/-- Severity validator of AlertSchema: the three-literal enum united with a
    plain z.string() fallback (the source comments the fallback as being for
    any custom severity labels). -/
def zodSeverity : Json → Option String := zodUnion zodSeverityEnum zodString

/-- AlertSchema.parse: a z.object requiring exactly the fields
    timestamp_utc, device_id, severity, route, message.  Unknown keys are
    ignored (zod default), missing or ill-typed required keys fail. -/
def parseAlert (j : Json) : Option Alert :=
  match j with
  | .obj fields =>
    match getField fields "timestamp_utc" >>= zodString,
          getField fields "device_id" >>= zodString,
          getField fields "severity" >>= zodSeverity,
          getField fields "route" >>= zodString,
          getField fields "message" >>= zodString with
    | some t, some d, some sev, some r, some m => some ⟨t, d, sev, r, m⟩
    | _, _, _, _, _ => none
  | _ => none

/-
  Alert rule engine.  The engine itself (itap/ml/alerts.py) is not present
  in this tree; every definition below marked as modelled from the spec
  follows the operational description in the specification, sections 3, 4
  and 6.
-/

/-- Modelled from the spec: the three severity literals of the engine data
    model (the engine code is absent from the tree). -/
inductive Severity where
  | info
  | warning
  | critical
deriving DecidableEq

/-- Modelled from the spec: operating state enum of a ScoredEvent. -/
inductive OpState where
  | run
  | idle
  | maint
deriving DecidableEq

/-- Modelled from the spec: an input ScoredEvent.  Timestamps are minutes as
    integers, percentages are rationals. -/
structure ScoredEvent where
  timestamp : Int
  device_id : String
  operating_state : OpState
  anomaly_score : Rat
  tag : Option String
  family_attribution : List (String × Rat)
  top_features : List (String × Rat)

/-- Modelled from the spec: character-level whitespace test used by tag
    normalization (trim whitespace). -/
def isWsChar (c : Char) : Bool := c.isWhitespace

/-- Modelled from the spec: trimming of a trailing whitespace run. -/
def trimRightW (cs : List Char) : List Char :=
  (cs.reverse.dropWhile isWsChar).reverse

/-- Modelled from the spec: trimming of surrounding whitespace. -/
def trimChars (cs : List Char) : List Char :=
  trimRightW (cs.dropWhile isWsChar)

/-- Modelled from the spec: TagRouter tag normalization, trim surrounding
    whitespace then case-fold. -/
def normalizeTag (s : String) : String :=
  String.mk ((trimChars s.data).map Char.toLower)

/-- Modelled from the spec: the immutable rule catalogue entry, a tagged
    variant over the three rule kinds. -/
inductive AlertRule where
  | burst (name : String) (window_minutes : Int) (min_anomalies : Nat)
      (severity : Severity) (cause : String)
  | dominantFamily (name : String) (families : List String) (min_percent : Rat)
      (severity : Severity) (cause : String)
  | tagRoute (name : String) (tag : String) (route : String)
      (severity : Severity) (cause : String)

/-
  BurstDetector, modelled from the spec, section 4.2: per device, evict
  queue entries strictly older than T minus window (inclusive boundary),
  append T, fire when the queue reaches min_anomalies, and on firing clear
  the queue except for T itself.
-/

/-- Modelled from the spec: a Burst alert record (confidence is always 1). -/
structure BurstAlert where
  device : String
  time : Int
  confidence : Rat
  cause : String
deriving DecidableEq

/-- Modelled from the spec: one BurstDetector step on a single device queue.
    Returns the new queue and whether a burst fired at this event. -/
def stepQ (window : Int) (minA : Nat) (q : List Int) (t : Int) : List Int × Bool :=
  let pruned := q.filter (fun s => decide (t - window ≤ s))
  let grown := pruned ++ [t]
  if minA ≤ grown.length then ([t], true) else (grown, false)

/-- Modelled from the spec: run the single-device queue over a timestamp
    list; returns the final queue and the timestamps at which bursts fired. -/
def runQ (window : Int) (minA : Nat) (q : List Int) : List Int → List Int × List Int
  | [] => (q, [])
  | t :: ts =>
    let st := stepQ window minA q t
    let rest := runQ window minA st.1 ts
    (rest.1, (if st.2 then [t] else []) ++ rest.2)

/-- Modelled from the spec: one BurstDetector step on the full per-device
    state (a map from device id to its queue). -/
def stepBurst (window : Int) (minA : Nat) (cause : String)
    (st : String → List Int) (ev : String × Int) :
    (String → List Int) × Option BurstAlert :=
  let r := stepQ window minA (st ev.1) ev.2
  (fun d => if d = ev.1 then r.1 else st d,
   if r.2 then some ⟨ev.1, ev.2, 1, cause⟩ else none)

/-- Modelled from the spec: run the BurstDetector over an event stream of
    (device, timestamp) pairs. -/
def runBurst (window : Int) (minA : Nat) (cause : String)
    (st : String → List Int) : List (String × Int) → (String → List Int) × List BurstAlert
  | [] => (st, [])
  | ev :: evs =>
    let s := stepBurst window minA cause st ev
    let rest := runBurst window minA cause s.1 evs
    (rest.1, (match s.2 with | some a => [a] | none => []) ++ rest.2)

/-- Timestamps of the events belonging to one device, in stream order. -/
def deviceTimes (evs : List (String × Int)) (d : String) : List Int :=
  (evs.filter (fun e => decide (e.1 = d))).map Prod.snd

/-
  DominantFamilyMatcher, modelled from the spec, section 4.3.
-/

/-- Modelled from the spec: attribution lookup, missing (or malformed,
    which upstream normalizes away) families count as zero. -/
def attrLookup (attr : List (String × Rat)) (f : String) : Rat :=
  match attr.find? (fun kv => kv.1 == f) with
  | some kv => kv.2
  | none => 0

/-- Modelled from the spec: combined attribution share of a rule family
    set. -/
def dfActual (families : List String) (attr : List (String × Rat)) : Rat :=
  (families.map (attrLookup attr)).sum

/-- Modelled from the spec: a DominantFamily rule matches iff the combined
    share reaches the threshold. -/
def dfMatches (minP actual : Rat) : Bool := decide (minP ≤ actual)

/-- Clamp to the unit interval. -/
def clampUnit (x : Rat) : Rat := max 0 (min 1 x)

/-- Modelled from the spec: DominantFamily confidence,
    clamp((actual - P) / (100 - P), 0, 1) for P below 100, and at P = 100
    exactly 1 when actual = 100, else 0. -/
def dfConfidence (minP actual : Rat) : Rat :=
  if minP < 100 then clampUnit ((actual - minP) / (100 - minP))
  else if actual = 100 then 1 else 0

/-
  TagRouter, modelled from the spec, section 4.4.
-/

/-- Modelled from the spec: the routing outcome of the TagRouter. -/
structure RouteResult where
  route : String
  severity : Severity
  cause : String
  confidence : Rat
deriving DecidableEq

/-- Modelled from the spec: lookup of a normalized tag in the configured
    tag table (the tagRoute entries of the catalogue, in order). -/
def tagLookup (rules : List AlertRule) (ntag : String) : Option RouteResult :=
  match rules with
  | [] => none
  | .tagRoute _ tag route sev cause :: rest =>
    if tag = ntag then some ⟨route, sev, cause, 1⟩ else tagLookup rest ntag
  | _ :: rest => tagLookup rest ntag

/-- Modelled from the spec: fallback for unknown tags. -/
def fallbackRoute : RouteResult := ⟨"unclassified", .info, "untagged anomaly", 0⟩

/-- Modelled from the spec: TagRouter resolution of an incoming raw tag:
    normalize, then exact table lookup, else the fallback. -/
def routeTag (rules : List AlertRule) (rawTag : String) : RouteResult :=
  match tagLookup rules (normalizeTag rawTag) with
  | some r => r
  | none => fallbackRoute

/-
  RuleEvaluator, modelled from the spec, section 4.5: collect the
  DominantFamily and TagRoute candidates in declaration order, append the
  untagged-anomaly fallback when a tag is present but matches no tagRoute
  rule, and select the single highest-confidence candidate, earlier
  declaration winning ties.
-/

/-- Modelled from the spec: the candidate a single non-burst rule
    contributes for an event, as (rule name, confidence). -/
def ruleCandidate (ev : ScoredEvent) : AlertRule → Option (String × Rat)
  | .burst _ _ _ _ _ => none
  | .dominantFamily name fams minP _ _ =>
    let actual := dfActual fams ev.family_attribution
    if dfMatches minP actual then some (name, dfConfidence minP actual) else none
  | .tagRoute name tag _ _ _ =>
    match ev.tag with
    | some t => if normalizeTag t = tag then some (name, 1) else none
    | none => none

/-- Candidates from the declared rules, in declaration order. -/
def ruleCandidates (rules : List AlertRule) (ev : ScoredEvent) : List (String × Rat) :=
  rules.filterMap (ruleCandidate ev)

/-- Whether some declared tagRoute rule matches the event tag. -/
def hasTagMatch (rules : List AlertRule) (ev : ScoredEvent) : Bool :=
  rules.any (fun r =>
    match r with
    | .tagRoute _ tag _ _ _ =>
      match ev.tag with
      | some t => normalizeTag t == tag
      | none => false
    | _ => false)

/-- Modelled from the spec: all non-burst candidates for one event; the
    zero-confidence fallback is appended last (so it never suppresses a
    declared match) and only when the event carries a tag that matches no
    configured tagRoute rule. -/
def allCandidates (rules : List AlertRule) (ev : ScoredEvent) : List (String × Rat) :=
  ruleCandidates rules ev ++
    (match ev.tag with
     | some _ => if hasTagMatch rules ev then [] else [("unclassified", 0)]
     | none => [])

/-- Modelled from the spec: pick the highest-confidence candidate, the
    earlier-declared one winning exact ties. -/
def selectBest : List (String × Rat) → Option (String × Rat)
  | [] => none
  | x :: xs =>
    match selectBest xs with
    | none => some x
    | some y => if x.2 < y.2 then some y else some x

/-- Modelled from the spec: the at-most-one non-burst alert decision of the
    RuleEvaluator for one event, as the winning (rule name, confidence). -/
def evaluateNonBurst (rules : List AlertRule) (ev : ScoredEvent) : Option (String × Rat) :=
  selectBest (allCandidates rules ev)

/-
  RuleConfigLoader, modelled from the spec, sections 4.1 and 6.
-/

/-- Modelled from the spec: one raw declarative rule as read from config,
    every recognized key optional until validated. -/
structure RawRule where
  kind : String
  name : String
  window_minutes : Option Int
  min_anomalies : Option Nat
  families : Option (List String)
  min_percent : Option Rat
  tag : Option String
  route : Option String
  severity : Option String
  cause : Option String

/-- Violations of the severity key, shared by all kinds. -/
def severityViolations (s : Option String) (kind : String) : List String :=
  match s with
  | none => [kind ++ ": missing severity"]
  | some v =>
    if v = "INFO" ∨ v = "WARNING" ∨ v = "CRITICAL" then [] else [kind ++ ": invalid severity"]

/-- Violations of the cause key, shared by all kinds. -/
def causeViolations (c : Option String) (kind : String) : List String :=
  match c with
  | none => [kind ++ ": missing cause"]
  | some _ => []

/-- Violations of the burst window key. -/
def windowViolations (w : Option Int) : List String :=
  match w with
  | none => ["burst: missing device_window_minutes"]
  | some v => if v ≤ 0 then ["burst: window_minutes must be positive"] else []

/-- Violations of the burst min_anomalies key. -/
def minAnomaliesViolations (m : Option Nat) : List String :=
  match m with
  | none => ["burst: missing min_anomalies"]
  | some v => if v < 2 then ["burst: min_anomalies must be at least 2"] else []

/-- Violations of the dominant_family families key. -/
def familiesViolations (f : Option (List String)) : List String :=
  match f with
  | none => ["dominant_family: missing families"]
  | some fams => if fams = [] then ["dominant_family: families must be non-empty"] else []

/-- Violations of the dominant_family min_percent key. -/
def minPercentViolations (p : Option Rat) : List String :=
  match p with
  | none => ["dominant_family: missing min_percent"]
  | some v => if 0 < v ∧ v ≤ 100 then [] else ["dominant_family: min_percent out of range"]

/-- Violations of the tag_route tag key. -/
def tagViolations (t : Option String) : List String :=
  match t with
  | none => ["tag_route: missing tag"]
  | some v => if v = "" then ["tag_route: tag must be non-empty"] else []

/-- Violations of the tag_route route key. -/
def routeViolations (rt : Option String) : List String :=
  match rt with
  | none => ["tag_route: missing route"]
  | some v => if v = "" then ["tag_route: route must be non-empty"] else []

/-- Modelled from the spec: all violations of a single raw rule; empty for
    a valid rule.  Unknown kinds are a violation naming the rule. -/
def ruleViolations (r : RawRule) : List String :=
  if r.kind = "burst" then
    windowViolations r.window_minutes ++ minAnomaliesViolations r.min_anomalies ++
      severityViolations r.severity "burst" ++ causeViolations r.cause "burst"
  else if r.kind = "dominant_family" then
    familiesViolations r.families ++ minPercentViolations r.min_percent ++
      severityViolations r.severity "dominant_family" ++
      causeViolations r.cause "dominant_family"
  else if r.kind = "tag_route" then
    tagViolations r.tag ++ routeViolations r.route ++
      severityViolations r.severity "tag_route" ++ causeViolations r.cause "tag_route"
  else
    ["unknown rule kind " ++ r.kind ++ " for rule " ++ r.name ++
     " (valid kinds: burst, dominant_family, tag_route)"]

/-- Parse of a severity literal into the engine enum. -/
def sevOfString (s : String) : Option Severity :=
  if s = "INFO" then some .info
  else if s = "WARNING" then some .warning
  else if s = "CRITICAL" then some .critical
  else none

/-- Modelled from the spec: build the catalogue entry of one valid raw
    rule (tagRoute tags are stored normalized). -/
def buildRule (r : RawRule) : Option AlertRule :=
  if r.kind = "burst" then
    match r.window_minutes, r.min_anomalies, r.severity.bind sevOfString, r.cause with
    | some w, some m, some sev, some c => some (.burst r.name w m sev c)
    | _, _, _, _ => none
  else if r.kind = "dominant_family" then
    match r.families, r.min_percent, r.severity.bind sevOfString, r.cause with
    | some fams, some p, some sev, some c => some (.dominantFamily r.name fams p sev c)
    | _, _, _, _ => none
  else if r.kind = "tag_route" then
    match r.tag, r.route, r.severity.bind sevOfString, r.cause with
    | some t, some rt, some sev, some c => some (.tagRoute r.name (normalizeTag t) rt sev c)
    | _, _, _, _ => none
  else none

/-- Modelled from the spec: the loader collects every violation of every
    rule; only a fully valid list yields a catalogue, and a failure carries
    the complete set of (rule index, message) violations. -/
def loadRules (rules : List RawRule) : Except (List (Nat × String)) (List AlertRule) :=
  let errs := (rules.enum.map (fun p => (ruleViolations p.2).map (fun m => (p.1, m)))).flatten
  if errs.isEmpty then .ok (rules.filterMap buildRule) else .error errs

/-- Spec-side validity of one raw rule, transcribing the constraints of
    the specification, section 4.1, literally. -/
def SeverityOk (s : Option String) : Prop :=
  ∃ v, s = some v ∧ (v = "INFO" ∨ v = "WARNING" ∨ v = "CRITICAL")

/-- Spec-side validity predicate for a raw rule. -/
def RuleValid (r : RawRule) : Prop :=
  (r.kind = "burst" ∧ (∃ w, r.window_minutes = some w ∧ 0 < w) ∧
    (∃ m, r.min_anomalies = some m ∧ 2 ≤ m) ∧ SeverityOk r.severity ∧ (∃ c, r.cause = some c)) ∨
  (r.kind = "dominant_family" ∧ (∃ fams, r.families = some fams ∧ fams ≠ []) ∧
    (∃ p, r.min_percent = some p ∧ 0 < p ∧ p ≤ 100) ∧ SeverityOk r.severity ∧ (∃ c, r.cause = some c)) ∨
  (r.kind = "tag_route" ∧ (∃ t, r.tag = some t ∧ t ≠ "") ∧
    (∃ rt, r.route = some rt ∧ rt ≠ "") ∧ SeverityOk r.severity ∧ (∃ c, r.cause = some c))

/-
  Dashboard health summaries
  (src/unnamed/part_002, HealthPage.summarizeHealth, and
   src/itap-dashboard/src/pages/OverviewPage.tsx).
-/

/-- The /api/health payload (src/itap-dashboard/src/lib/schemas/health.ts);
    records become association lists. -/
structure Health where
  status : String
  artifact_dir : String
  artifacts_present : List (String × Bool)
  artifacts_mtime_utc : List (String × Option String)

/-- Result record of summarizeHealth; Date values become epoch
    milliseconds. -/
structure HealthSummary where
  present : Nat
  missing : Nat
  total : Nat
  maxAgeMs : Option Int
  entries : List (String × Bool)
  lastScoreRun : Option Int

/-- Optional-chained record access data.artifacts_mtime_utc?.[file]; an
    entry explicitly null and an absent entry both read as null. -/
def lookupMtime (data : Health) (file : String) : Option String :=
  match data.artifacts_mtime_utc.find? (fun kv => kv.1 == file) with
  | some kv => kv.2
  | none => none

/-- parseIsoOrNull from HealthPage: null, undefined and the empty string
    are falsy and give null; otherwise Date.parse decides.  Date.parse is
    the host runtime primitive, passed in as an oracle. -/
def parseIsoOrNull (parseIso : String → Option Int) : Option String → Option Int
  | none => none
  | some v => if v = "" then none else parseIso v

/-- summarizeHealth from HealthPage: count present and missing artifacts
    by one pass over the entries, sum them for the total, collect the ages
    of parseable mtimes and take their maximum, and read the last score
    run from alerts.json, falling back to metrics.json. -/
def summarizeHealth (parseIso : String → Option Int) (data : Health) (nowMs : Int) :
    HealthSummary :=
  let entries := data.artifacts_present
  let counts := entries.foldl
    (fun (pm : Nat × Nat) e => if e.2 then (pm.1 + 1, pm.2) else (pm.1, pm.2 + 1)) (0, 0)
  let present := counts.1
  let missing := counts.2
  let total := present + missing
  let ages := entries.filterMap
    (fun e => (parseIsoOrNull parseIso (lookupMtime data e.1)).map (fun t => nowMs - t))
  let maxAgeMs := match ages with
    | [] => none
    | a :: rest => some (rest.foldl max a)
  let lastScoreRunStr := match lookupMtime data "alerts.json" with
    | some s => some s
    | none => lookupMtime data "metrics.json"
  let lastScoreRun := parseIsoOrNull parseIso lastScoreRunStr
  ⟨present, missing, total, maxAgeMs, entries, lastScoreRun⟩

/-- OverviewPage: Object.keys(data.artifacts_present).length. -/
def overviewTotal (data : Health) : Nat := data.artifacts_present.length

/-- OverviewPage: Object.values(data.artifacts_present).filter(Boolean).length. -/
def overviewPresent (data : Health) : Nat :=
  (data.artifacts_present.filter (fun e => e.2)).length

/-- OverviewPage: totalArtifacts - presentArtifacts. -/
def overviewMissing (data : Health) : Nat := overviewTotal data - overviewPresent data

/-
  fetchJson (src/itap-dashboard/src/lib/api/endpoints.ts, client part).
  The network fetch is the host runtime primitive; the model takes the
  response it would deliver.  Strings on this boundary are character
  lists.
-/

/-- A fetch Response as fetchJson consumes it: ok flag, status, status
    text, the text read for the error message, and the parsed JSON body
    when res.json() would succeed. -/
structure HttpResponse where
  ok : Bool
  status : Nat
  statusText : List Char
  bodyText : List Char
  jsonBody : Option Json

/-- Decimal rendering of a number, as JS string interpolation of
    res.status produces it. -/
def natToChars (n : Nat) : List Char :=
  if n = 0 then ['0'] else (Nat.digits 10 n).reverse.map (fun d => Char.ofNat (48 + d))

/-- The error message template of fetchJson for a non-ok response:
    backtick-template HTTP status statusText text, then trim(). -/
def httpErrorMessage (res : HttpResponse) : List Char :=
  trimChars ("HTTP ".data ++ (natToChars res.status ++ (" ".data ++ (res.statusText
    ++ (" ".data ++ res.bodyText)))))

/-- fetchJson: reject a non-ok response with the templated error, reject a
    body that res.json() cannot parse, reject a body the zod schema
    rejects, and only then resolve with the schema-validated value. -/
def fetchJson {α : Type} (schema : Json → Option α) (res : HttpResponse) :
    Except (List Char) α :=
  if res.ok then
    match res.jsonBody with
    | none => .error ("invalid json body".data)
    | some j =>
      match schema j with
      | some v => .ok v
      | none => .error ("zod validation failed".data)
  else .error (httpErrorMessage res)

/-
  Concrete records used to exercise the boundary schema.
-/

/-- A record carrying only the five fields the dashboard schema names, with
    a severity outside the three engine literals. -/
def debugSeverityRecord : List (String × Json) :=
  [("timestamp_utc", Json.str "2026-01-15T02:15:05Z"),
   ("device_id", Json.str "PUMP-001"),
   ("severity", Json.str "DEBUG"),
   ("route", Json.str "maintenance"),
   ("message", Json.str "m")]

/-- A record carrying only the five fields the dashboard schema names and
    none of the engine output fields. -/
def fiveFieldRecord : List (String × Json) :=
  [("timestamp_utc", Json.str "2026-01-15T02:15:05Z"),
   ("device_id", Json.str "PUMP-001"),
   ("severity", Json.str "INFO"),
   ("route", Json.str "maintenance"),
   ("message", Json.str "pump ok")]

/-
  Theorems.  Shared inversion lemmas first, then one theorem per claim
  with its witness or counterexample.
-/

/-- A successful z.string() parse forces a string value. -/
theorem zodString_eq_some {j : Json} {s : String} (h : zodString j = some s) :
    j = Json.str s := by
  cases j <;> simp [zodString] at h
  simp [h]

/-- The severity union accepts every string unchanged. -/
theorem zodSeverity_str (s : String) : zodSeverity (Json.str s) = some s := by
  by_cases h : s = "INFO" ∨ s = "WARNING" ∨ s = "CRITICAL"
  · simp [zodSeverity, zodUnion, zodSeverityEnum, h]
  · simp [zodSeverity, zodUnion, zodSeverityEnum, h, zodString]

/-- A successful severity parse forces a string value. -/
theorem zodSeverity_eq_some {j : Json} {s : String} (h : zodSeverity j = some s) :
    j = Json.str s := by
  cases j
  case str x =>
    rw [zodSeverity_str] at h
    simp only [Option.some.injEq] at h
    rw [h]
  all_goals simp [zodSeverity, zodUnion, zodSeverityEnum, zodString] at h

/-- Claim C1, counterexample: the downstream AlertSchema accepts the
    severity DEBUG, a value outside the three literals, on an otherwise
    well-formed record, so the boundary schema does not restrict severity
    to INFO, WARNING, CRITICAL. -/
theorem alertSchema_accepts_debug_severity_cx :
    parseAlert (Json.obj debugSeverityRecord) =
      some ⟨"2026-01-15T02:15:05Z", "PUMP-001", "DEBUG", "maintenance", "m"⟩ ∧
    ¬("DEBUG" = "INFO" ∨ "DEBUG" = "WARNING" ∨ "DEBUG" = "CRITICAL") := by
  decide

/-- Claim C1, amended: the engine severity type has exactly the three
    literals, but the downstream AlertSchema validates severity as the
    union of the three-literal enum with an arbitrary-string fallback, so
    it accepts every string severity and rejects only non-string values. -/
theorem alertSchema_severity_amended :
    (∀ sev : Severity, sev = .info ∨ sev = .warning ∨ sev = .critical) ∧
    (∀ s : String, zodSeverity (Json.str s) = some s) ∧
    zodSeverity Json.null = none ∧
    (∀ b, zodSeverity (Json.bool b) = none) ∧
    (∀ q, zodSeverity (Json.num q) = none) ∧
    (∀ xs, zodSeverity (Json.arr xs) = none) ∧
    (∀ fs, zodSeverity (Json.obj fs) = none) := by
  refine ⟨fun sev => ?_, zodSeverity_str, rfl, fun _ => rfl, fun _ => rfl,
    fun _ => rfl, fun _ => rfl⟩
  cases sev
  · exact Or.inl rfl
  · exact Or.inr (Or.inl rfl)
  · exact Or.inr (Or.inr rfl)

/-- Claim C2, counterexample: a record carrying only timestamp_utc,
    device_id, severity, route and message, and none of the fields score,
    confidence, root_cause, rule_name, families, top_features, passes the
    downstream AlertSchema, so the schema does not require those fields. -/
theorem alertSchema_five_fields_cx :
    parseAlert (Json.obj fiveFieldRecord) =
      some ⟨"2026-01-15T02:15:05Z", "PUMP-001", "INFO", "maintenance", "pump ok"⟩ ∧
    getField fiveFieldRecord "score" = none ∧
    getField fiveFieldRecord "confidence" = none ∧
    getField fiveFieldRecord "root_cause" = none ∧
    getField fiveFieldRecord "rule_name" = none ∧
    getField fiveFieldRecord "families" = none ∧
    getField fiveFieldRecord "top_features" = none :=
  ⟨rfl, rfl, rfl, rfl, rfl, rfl, rfl⟩

/-- Claim C2, amended: every record the downstream AlertSchema validates is
    an object carrying string-valued timestamp_utc, device_id, severity,
    route and message fields; the schema requires exactly these five fields
    and none of score, confidence, root_cause, rule_name, families,
    top_features. -/
theorem alertSchema_required_fields (j : Json) (a : Alert)
    (h : parseAlert j = some a) :
    ∃ fields, j = Json.obj fields ∧
      getField fields "timestamp_utc" = some (Json.str a.timestamp_utc) ∧
      getField fields "device_id" = some (Json.str a.device_id) ∧
      getField fields "severity" = some (Json.str a.severity) ∧
      getField fields "route" = some (Json.str a.route) ∧
      getField fields "message" = some (Json.str a.message) := by
  cases j
  case obj fields =>
    simp only [parseAlert] at h
    refine ⟨fields, rfl, ?_⟩
    rcases h1 : getField fields "timestamp_utc" >>= zodString with _ | t <;> rw [h1] at h
    case none => simp at h
    rcases h2 : getField fields "device_id" >>= zodString with _ | d <;> rw [h2] at h
    case none => simp at h
    rcases h3 : getField fields "severity" >>= zodSeverity with _ | sev <;> rw [h3] at h
    case none => simp at h
    rcases h4 : getField fields "route" >>= zodString with _ | r <;> rw [h4] at h
    case none => simp at h
    rcases h5 : getField fields "message" >>= zodString with _ | m <;> rw [h5] at h
    case none => simp at h
    simp only [Option.some.injEq] at h
    subst h
    rcases Option.bind_eq_some.mp h1 with ⟨j1, hg1, hv1⟩
    rcases Option.bind_eq_some.mp h2 with ⟨j2, hg2, hv2⟩
    rcases Option.bind_eq_some.mp h3 with ⟨j3, hg3, hv3⟩
    rcases Option.bind_eq_some.mp h4 with ⟨j4, hg4, hv4⟩
    rcases Option.bind_eq_some.mp h5 with ⟨j5, hg5, hv5⟩
    rw [zodString_eq_some hv1] at hg1
    rw [zodString_eq_some hv2] at hg2
    rw [zodSeverity_eq_some hv3] at hg3
    rw [zodString_eq_some hv4] at hg4
    rw [zodString_eq_some hv5] at hg5
    exact ⟨hg1, hg2, hg3, hg4, hg5⟩
  all_goals simp [parseAlert] at h

/-- Witness for claim C2: the amended theorem applied to the concrete
    five-field record. -/
theorem alertSchema_required_fields_witness :
    ∃ fields, Json.obj fiveFieldRecord = Json.obj fields ∧
      getField fields "timestamp_utc" = some (Json.str "2026-01-15T02:15:05Z") ∧
      getField fields "device_id" = some (Json.str "PUMP-001") ∧
      getField fields "severity" = some (Json.str "INFO") ∧
      getField fields "route" = some (Json.str "maintenance") ∧
      getField fields "message" = some (Json.str "pump ok") :=
  alertSchema_required_fields (Json.obj fiveFieldRecord)
    ⟨"2026-01-15T02:15:05Z", "PUMP-001", "INFO", "maintenance", "pump ok"⟩
    (by decide)

/-- Running the single-device queue over an appended stream splits into two
    runs, the second starting from the intermediate queue. -/
theorem runQ_append (w : Int) (n : Nat) (xs ys : List Int) :
    ∀ q, runQ w n q (xs ++ ys) =
      ((runQ w n (runQ w n q xs).1 ys).1,
       (runQ w n q xs).2 ++ (runQ w n (runQ w n q xs).1 ys).2) := by
  induction xs with
  | nil => intro q; simp [runQ]
  | cons t ts ih => intro q; simp [runQ, ih]

/-- While no burst fires, each processed event adds one element at or above
    a lower bound lo of the current window to the queue: events inside the
    interval never get pruned, because the inclusive window of any event of
    the interval reaches back to lo. -/
theorem runQ_no_alert_count (w : Int) (n : Nat) (lo : Int) :
    ∀ (ts : List Int) (q : List Int),
      (∀ t ∈ ts, lo ≤ t ∧ t ≤ lo + w) → (runQ w n q ts).2 = [] →
      (q.filter (fun s => decide (lo ≤ s))).length + ts.length ≤
        (((runQ w n q ts).1).filter (fun s => decide (lo ≤ s))).length := by
  intro ts
  induction ts with
  | nil => intro q _ _; simp [runQ]
  | cons t ts ih =>
    intro q hb halerts
    have hbt := hb t (List.mem_cons_self t ts)
    have hbts : ∀ x ∈ ts, lo ≤ x ∧ x ≤ lo + w :=
      fun x hx => hb x (List.mem_cons_of_mem t hx)
    simp only [runQ, stepQ] at halerts ⊢
    by_cases hfire : n ≤ (q.filter (fun s => decide (t - w ≤ s)) ++ [t]).length
    · simp only [if_pos hfire] at halerts
      exact absurd halerts (by simp)
    · simp only [if_neg hfire] at halerts ⊢
      replace halerts :
          (runQ w n (q.filter (fun s => decide (t - w ≤ s)) ++ [t]) ts).2 = [] := halerts
      have hgrow :
          (((q.filter (fun s => decide (t - w ≤ s)) ++ [t]).filter
            (fun s => decide (lo ≤ s))).length) =
          ((q.filter (fun s => decide (lo ≤ s))).length) + 1 := by
        rw [List.filter_append, List.filter_filter]
        have hcong : ∀ s ∈ q,
            (decide (lo ≤ s) && decide (t - w ≤ s)) = decide (lo ≤ s) := by
          intro s _
          by_cases hs : lo ≤ s
          · have : t - w ≤ s := by omega
            simp [hs, this]
          · simp [hs]
        rw [List.filter_congr hcong]
        have ht : decide (lo ≤ t) = true := by simp [hbt.1]
        simp [ht]
      have := ih (q.filter (fun s => decide (t - w ≤ s)) ++ [t]) hbts halerts
      rw [hgrow] at this
      simp only [List.length_cons]
      omega

/-- While no burst fires on a nonempty stream, the final queue stayed
    strictly below the firing threshold. -/
theorem runQ_no_alert_flen (w : Int) (n : Nat) :
    ∀ (ts : List Int) (q : List Int), ts ≠ [] → (runQ w n q ts).2 = [] →
      ((runQ w n q ts).1).length < n := by
  intro ts
  induction ts with
  | nil => intro q h _; exact absurd rfl h
  | cons t ts ih =>
    intro q _ halerts
    simp only [runQ, stepQ] at halerts ⊢
    by_cases hfire : n ≤ (q.filter (fun s => decide (t - w ≤ s)) ++ [t]).length
    · simp only [if_pos hfire] at halerts
      exact absurd halerts (by simp)
    · simp only [if_neg hfire] at halerts ⊢
      replace halerts :
          (runQ w n (q.filter (fun s => decide (t - w ≤ s)) ++ [t]) ts).2 = [] := halerts
      cases ts with
      | nil =>
        simp only [runQ]
        omega
      | cons u us => exact ih (q.filter (fun s => decide (t - w ≤ s)) ++ [t]) (by simp) halerts

/-- Modelled from the spec, the heart of claim C3: once a stream segment of
    at least min_anomalies events lies inside one inclusive window-wide
    interval, the single-device detector fires at least once during the
    segment, whatever the queue held before. -/
theorem runQ_group_fires (w : Int) (n : Nat) (lo : Int) (ts : List Int) (q : List Int)
    (hn : 1 ≤ n) (hlen : n ≤ ts.length) (hb : ∀ t ∈ ts, lo ≤ t ∧ t ≤ lo + w) :
    (runQ w n q ts).2 ≠ [] := by
  intro hal
  have hne : ts ≠ [] := by
    cases ts
    · simp at hlen; omega
    · simp
  have h1 := runQ_no_alert_count w n lo ts q hb hal
  have h2 := runQ_no_alert_flen w n ts q hne hal
  have h3 : (((runQ w n q ts).1).filter (fun s => decide (lo ≤ s))).length ≤
      ((runQ w n q ts).1).length := List.length_filter_le _ _
  omega

/-- In a sorted list whose elements all sit at or above lo, the elements of
    the closed interval from lo to hi form an initial segment. -/
theorem sorted_bounded_filter_front (lo hi : Int) :
    ∀ l : List Int, l.Sorted (· ≤ ·) → (∀ a ∈ l, lo ≤ a) →
      ∃ post, l = l.filter (fun t => decide (lo ≤ t) && decide (t ≤ hi)) ++ post := by
  intro l
  induction l with
  | nil => intro _ _; exact ⟨[], rfl⟩
  | cons x xs ih =>
    intro hs hlo
    rw [List.sorted_cons] at hs
    by_cases hx : x ≤ hi
    · have hpx : (decide (lo ≤ x) && decide (x ≤ hi)) = true := by
        simp [hlo x (List.mem_cons_self x xs), hx]
      obtain ⟨post, hpost⟩ := ih hs.2 (fun a ha => hlo a (List.mem_cons_of_mem x ha))
      refine ⟨post, ?_⟩
      rw [List.filter_cons, if_pos hpx, List.cons_append]
      exact congrArg (x :: ·) hpost
    · have hall : (x :: xs).filter (fun t => decide (lo ≤ t) && decide (t ≤ hi)) = [] := by
        rw [List.filter_eq_nil_iff]
        intro a ha
        have hxa : x ≤ a := by
          rcases List.mem_cons.mp ha with rfl | h
          · exact le_refl a
          · exact hs.1 a h
        simp only [Bool.and_eq_true, decide_eq_true_eq, not_and]
        intro _
        omega
      exact ⟨x :: xs, by rw [hall, List.nil_append]⟩

/-- In a sorted list, the elements of a closed interval form a contiguous
    block. -/
theorem sorted_interval_block (lo hi : Int) :
    ∀ l : List Int, l.Sorted (· ≤ ·) →
      ∃ pre post,
        l = pre ++ l.filter (fun t => decide (lo ≤ t) && decide (t ≤ hi)) ++ post := by
  intro l
  induction l with
  | nil => exact fun _ => ⟨[], [], rfl⟩
  | cons x xs ih =>
    intro hs
    rw [List.sorted_cons] at hs
    by_cases hxlo : lo ≤ x
    · by_cases hxhi : x ≤ hi
      · have hpx : (decide (lo ≤ x) && decide (x ≤ hi)) = true := by simp [hxlo, hxhi]
        obtain ⟨post, hpost⟩ := sorted_bounded_filter_front lo hi xs hs.2
          (fun a ha => le_trans hxlo (hs.1 a ha))
        refine ⟨[], post, ?_⟩
        rw [List.filter_cons, if_pos hpx, List.nil_append, List.cons_append]
        exact congrArg (x :: ·) hpost
      · have hall : (x :: xs).filter (fun t => decide (lo ≤ t) && decide (t ≤ hi)) = [] := by
          rw [List.filter_eq_nil_iff]
          intro a ha
          have hxa : x ≤ a := by
            rcases List.mem_cons.mp ha with rfl | h
            · exact le_refl a
            · exact hs.1 a h
          simp only [Bool.and_eq_true, decide_eq_true_eq, not_and]
          intro _
          omega
        exact ⟨[], x :: xs, by rw [hall, List.nil_append, List.nil_append]⟩
    · have hpx : (decide (lo ≤ x) && decide (x ≤ hi)) = false := by simp [hxlo]
      obtain ⟨pre, post, hdec⟩ := ih hs.2
      refine ⟨x :: pre, post, ?_⟩
      rw [List.filter_cons, if_neg (by simp [hpx]), List.cons_append]
      exact congrArg (x :: ·) hdec

/-- The per-device projection of the full BurstDetector: the queue of a
    device and the alerts attributed to it are exactly what the
    single-device run over its own event timestamps produces; other
    devices' events do not interfere. -/
theorem runBurst_proj (w : Int) (n : Nat) (c : String) (D : String) :
    ∀ (evs : List (String × Int)) (st : String → List Int),
      (runBurst w n c st evs).1 D = (runQ w n (st D) (deviceTimes evs D)).1 ∧
      (runBurst w n c st evs).2.filter (fun a => decide (a.device = D)) =
        ((runQ w n (st D) (deviceTimes evs D)).2.map
          (fun t => (⟨D, t, 1, c⟩ : BurstAlert))) := by
  intro evs
  induction evs with
  | nil => intro st; simp [runBurst, runQ, deviceTimes]
  | cons ev evs ih =>
    intro st
    by_cases hd : ev.1 = D
    · have hdt : deviceTimes (ev :: evs) D = ev.2 :: deviceTimes evs D := by
        simp [deviceTimes, List.filter_cons, hd]
      have hupd : (if D = ev.1 then (stepQ w n (st ev.1) ev.2).1 else st D) =
          (stepQ w n (st D) ev.2).1 := by
        simp [hd]
      constructor
      · simp only [runBurst, stepBurst, hdt, runQ]
        rw [(ih _).1, hupd]
      · simp only [runBurst, stepBurst, hdt, runQ, List.filter_append]
        rw [(ih _).2, hupd, hd]
        by_cases hfire : (stepQ w n (st D) ev.2).2 = true
        · simp [hfire, hd]
        · simp only [Bool.not_eq_true] at hfire
          simp [hfire]
    · have hdt : deviceTimes (ev :: evs) D = deviceTimes evs D := by
        simp [deviceTimes, List.filter_cons, hd]
      have hupd : (if D = ev.1 then (stepQ w n (st ev.1) ev.2).1 else st D) = st D :=
        if_neg (fun h => hd h.symm)
      constructor
      · simp only [runBurst, stepBurst, hdt]
        rw [(ih _).1, hupd]
      · simp only [runBurst, stepBurst, hdt, List.filter_append]
        rw [(ih _).2, hupd]
        by_cases hfire : (stepQ w n (st ev.1) ev.2).2 = true
        · simp [hfire, hd]
        · simp only [Bool.not_eq_true] at hfire
          simp [hfire]

/-- Claim C3: whenever at least min_anomalies qualifying events of one
    device fall inside some closed, window-wide time interval (the
    inclusive boundary: both endpoints count), the BurstDetector emits a
    Burst alert for that device with confidence exactly 1, whatever state
    it starts from.  Per-device timestamps are assumed non-decreasing, as
    the specification requires of the input stream. -/
theorem burst_window_fires (w : Int) (n : Nat) (c : String) (evs : List (String × Int))
    (D : String) (lo : Int) (st : String → List Int)
    (hn : 1 ≤ n)
    (hsorted : (deviceTimes evs D).Sorted (· ≤ ·))
    (hcount : n ≤ ((deviceTimes evs D).filter
        (fun t => decide (lo ≤ t) && decide (t ≤ lo + w))).length) :
    ∃ a ∈ (runBurst w n c st evs).2,
      a.device = D ∧ a.confidence = 1 ∧ a.cause = c := by
  obtain ⟨pre, post, hdec⟩ := sorted_interval_block lo (lo + w) (deviceTimes evs D) hsorted
  have hproj := (runBurst_proj w n c D evs st).2
  rw [hdec, List.append_assoc] at hproj
  rw [runQ_append w n pre (((deviceTimes evs D).filter
      (fun t => decide (lo ≤ t) && decide (t ≤ lo + w))) ++ post)] at hproj
  rw [runQ_append w n ((deviceTimes evs D).filter
      (fun t => decide (lo ≤ t) && decide (t ≤ lo + w))) post] at hproj
  have hbmid : ∀ t ∈ (deviceTimes evs D).filter
      (fun t => decide (lo ≤ t) && decide (t ≤ lo + w)), lo ≤ t ∧ t ≤ lo + w := by
    intro t ht
    have := List.of_mem_filter ht
    simpa using this
  have hfired := runQ_group_fires w n lo
    ((deviceTimes evs D).filter (fun t => decide (lo ≤ t) && decide (t ≤ lo + w)))
    ((runQ w n (st D) pre).1) hn hcount hbmid
  obtain ⟨t0, ht0⟩ := List.exists_mem_of_ne_nil _ hfired
  have hmem : (⟨D, t0, 1, c⟩ : BurstAlert) ∈
      (runBurst w n c st evs).2.filter (fun a => decide (a.device = D)) := by
    rw [hproj]
    refine List.mem_map_of_mem _ ?_
    simp only [List.mem_append]
    exact Or.inr (Or.inl ht0)
  exact ⟨⟨D, t0, 1, c⟩, (List.mem_filter.mp hmem).1, rfl, rfl, rfl⟩

/-- Witness for claim C3: two events of one device exactly window minutes
    apart, demonstrating the inclusive boundary, trigger a burst from the
    fresh detector state. -/
theorem burst_window_fires_witness :
    ∃ a ∈ (runBurst 10 2 "temporal cluster" (fun _ => [])
        [("DEV-1", 0), ("DEV-1", 10)]).2,
      a.device = "DEV-1" ∧ a.confidence = 1 ∧ a.cause = "temporal cluster" :=
  burst_window_fires 10 2 "temporal cluster" [("DEV-1", 0), ("DEV-1", 10)]
    "DEV-1" 0 (fun _ => []) (by decide) (by decide) (by decide)

/-- While no burst fires, the queue grows by at most one element per
    event. -/
theorem runQ_no_alert_length (w : Int) (n : Nat) :
    ∀ (ts : List Int) (q : List Int), (runQ w n q ts).2 = [] →
      ((runQ w n q ts).1).length ≤ q.length + ts.length := by
  intro ts
  induction ts with
  | nil => intro q _; simp [runQ]
  | cons t ts ih =>
    intro q halerts
    simp only [runQ, stepQ] at halerts ⊢
    by_cases hfire : n ≤ (q.filter (fun s => decide (t - w ≤ s)) ++ [t]).length
    · simp only [if_pos hfire] at halerts
      exact absurd halerts (by simp)
    · simp only [if_neg hfire] at halerts ⊢
      replace halerts :
          (runQ w n (q.filter (fun s => decide (t - w ≤ s)) ++ [t]) ts).2 = [] := halerts
      have hstep := ih (q.filter (fun s => decide (t - w ≤ s)) ++ [t]) halerts
      have hfl : (q.filter (fun s => decide (t - w ≤ s))).length ≤ q.length :=
        List.length_filter_le _ _
      simp only [List.length_append, List.length_cons, List.length_nil] at hstep ⊢
      omega

/-- Claim C4, amended: once a burst fires for device D at time T the queue
    retains T, so the next burst for D needs at least min_anomalies minus
    one further events of D (not min_anomalies of them): any later firing
    event arrives after at least that many intermediate events.  Moreover,
    an event of one device leaves every other device queue untouched. -/
theorem burst_dedup_amended (w : Int) (n : Nat) (c : String) :
    (∀ (T t : Int) (ts1 : List Int),
        (runQ w n [T] ts1).2 = [] →
        (stepQ w n (runQ w n [T] ts1).1 t).2 = true →
        n ≤ ts1.length + 2) ∧
    (∀ (st : String → List Int) (ev : String × Int) (D : String),
        ev.1 ≠ D → (stepBurst w n c st ev).1 D = st D) := by
  constructor
  · intro T t ts1 hquiet hfire
    have hlen := runQ_no_alert_length w n ts1 [T] hquiet
    simp only [stepQ] at hfire
    by_cases hc : n ≤ ((runQ w n [T] ts1).1.filter (fun s => decide (t - w ≤ s)) ++ [t]).length
    · have hfl : ((runQ w n [T] ts1).1.filter (fun s => decide (t - w ≤ s))).length ≤
          ((runQ w n [T] ts1).1).length := List.length_filter_le _ _
      simp only [List.length_append, List.length_cons, List.length_nil] at hc hlen
      omega
    · simp only [if_neg hc] at hfire
      exact absurd hfire (by simp)
  · intro st ev D hne
    exact if_neg (fun h => hne h.symm)

/-- Witness for claim C4: with min_anomalies three, a firing one event
    after a quiet run of one event means at least two further events
    arrived, and an event of device A leaves device B untouched. -/
theorem burst_dedup_amended_witness :
    (3 : Nat) ≤ [(1 : Int)].length + 2 ∧
    (stepBurst 10 3 "cluster" (fun _ => []) ("DEV-A", 5)).1 "DEV-B" = [] :=
  ⟨(burst_dedup_amended 10 3 "cluster").1 0 2 [1] (by decide) (by decide),
   (burst_dedup_amended 10 3 "cluster").2 (fun _ => []) ("DEV-A", 5) "DEV-B" (by decide)⟩

/-- Claim C4, counterexample: with min_anomalies 2 and a 10 minute window,
    events of device D at 0, 1 and 2 produce a burst at time 1 and a second
    burst at time 2, although only one further event (fewer than
    min_anomalies) accumulated after the first trigger: the retained
    trigger timestamp counts toward the next window. -/
theorem burst_dedup_cx :
    (runBurst 10 2 "cluster" (fun _ => []) [("D", 0), ("D", 1), ("D", 2)]).2 =
      [⟨"D", 1, 1, "cluster"⟩, ⟨"D", 2, 1, "cluster"⟩] ∧ (1 : Nat) < 2 := by
  decide

/-- Claim C5, counterexample: for the threshold P = 100, which the claim
    admits (P in the half-open interval up to 100), an actual of exactly P
    matches with confidence 1, not 0, and the confidence is not monotone
    there: an actual of 150 gets confidence 0. -/
theorem dominant_conf_at_threshold_cx :
    dfMatches 100 100 = true ∧ dfConfidence 100 100 = 1 ∧
    ¬ dfConfidence 100 100 = 0 ∧
    dfConfidence 100 150 = 0 ∧ (100 : Rat) ≤ 150 := by
  refine ⟨by decide, ?_, ?_, ?_, by norm_num⟩ <;> norm_num [dfConfidence]

/-- Claim C5, amended: a DominantFamily rule matches iff the summed
    attribution of its family set (missing families count as zero) reaches
    the threshold P; for P below 100 the confidence is the clamped
    normalized overshoot, is 0 at actual equal to P, and is monotonically
    non-decreasing in actual; and the documented scenario holds: actual 47
    against P 45 matches with confidence 2/55. -/
theorem dominant_confidence_amended (fams : List String) (attr : List (String × Rat))
    (minP a1 a2 : Rat) :
    (dfMatches minP (dfActual fams attr) = true ↔ minP ≤ dfActual fams attr) ∧
    (minP < 100 → dfConfidence minP (dfActual fams attr) =
      clampUnit ((dfActual fams attr - minP) / (100 - minP))) ∧
    (minP < 100 → dfConfidence minP minP = 0) ∧
    (minP < 100 → a1 ≤ a2 → dfConfidence minP a1 ≤ dfConfidence minP a2) ∧
    dfConfidence 45 47 = 2 / 55 ∧
    dfActual ["Voltage"] [("Voltage", 47), ("Temperature", 25), ("Current", 20)] = 47 ∧
    dfMatches 45 47 = true := by
  refine ⟨by simp [dfMatches], fun h => by simp [dfConfidence, h], fun h => ?_, ?_, ?_, ?_, by decide⟩
  · simp only [dfConfidence, if_pos h, clampUnit, sub_self, zero_div]
    norm_num
  · intro h h12
    have hden : (0 : Rat) < 100 - minP := by linarith
    simp only [dfConfidence, if_pos h, clampUnit]
    have hdiv : (a1 - minP) / (100 - minP) ≤ (a2 - minP) / (100 - minP) :=
      (div_le_div_iff_of_pos_right hden).mpr (by linarith)
    exact max_le_max le_rfl (min_le_min le_rfl hdiv)
  · norm_num [dfConfidence, clampUnit, min_def, max_def]
  · norm_num [dfActual, attrLookup, List.find?]

/-- Witness for claim C5: the amended theorem applied at the documented
    scenario threshold 45, with actuals 45, 46 and 47. -/
theorem dominant_confidence_amended_witness :
    dfConfidence 45 45 = 0 ∧ dfConfidence 45 46 ≤ dfConfidence 45 47 :=
  ⟨(dominant_confidence_amended [] [] 45 0 0).2.2.1 (by norm_num),
   (dominant_confidence_amended [] [] 45 46 47).2.2.2.1 (by norm_num) (by norm_num)⟩

/-- selectBest returns none only on an empty candidate list. -/
theorem selectBest_eq_none {l : List (String × Rat)} (h : selectBest l = none) :
    l = [] := by
  cases l with
  | nil => rfl
  | cons x xs =>
    simp only [selectBest] at h
    cases hsb : selectBest xs <;> rw [hsb] at h
    · exact absurd h (by simp)
    · next y =>
      replace h : (if x.2 < y.2 then some y else some x) = none := h
      by_cases hlt : x.2 < y.2
      · rw [if_pos hlt] at h
        exact absurd h (by simp)
      · rw [if_neg hlt] at h
        exact absurd h (by simp)

/-- The selected candidate splits the list into strictly weaker earlier
    candidates and no-stronger later ones: the highest confidence wins and
    exact ties go to the earlier entry. -/
theorem selectBest_spec :
    ∀ (l : List (String × Rat)) (p : String × Rat), selectBest l = some p →
      ∃ l1 l2, l = l1 ++ p :: l2 ∧ (∀ q ∈ l1, q.2 < p.2) ∧ (∀ q ∈ l2, q.2 ≤ p.2) := by
  intro l
  induction l with
  | nil => intro p h; simp [selectBest] at h
  | cons x xs ih =>
    intro p h
    simp only [selectBest] at h
    cases hsb : selectBest xs <;> rw [hsb] at h
    · have hxs : xs = [] := selectBest_eq_none hsb
      replace h : some x = some p := h
      simp only [Option.some.injEq] at h
      subst h
      exact ⟨[], [], by simp [hxs], by simp, by simp [hxs]⟩
    · next y =>
      replace h : (if x.2 < y.2 then some y else some x) = some p := h
      by_cases hlt : x.2 < y.2
      · rw [if_pos hlt] at h
        simp only [Option.some.injEq] at h
        subst h
        obtain ⟨l1, l2, hdec, hstrict, hle⟩ := ih y hsb
        refine ⟨x :: l1, l2, by rw [hdec, List.cons_append], ?_, hle⟩
        intro q hq
        rcases List.mem_cons.mp hq with rfl | hq
        · exact hlt
        · exact hstrict q hq
      · rw [if_neg hlt] at h
        simp only [Option.some.injEq] at h
        subst h
        obtain ⟨l1, l2, hdec, hstrict, hle⟩ := ih y hsb
        refine ⟨[], xs, rfl, by simp, ?_⟩
        intro q hq
        have hyx : y.2 ≤ x.2 := le_of_not_lt hlt
        rw [hdec] at hq
        rcases List.mem_append.mp hq with hq | hq
        · exact le_trans (le_of_lt (hstrict q hq)) hyx
        · rcases List.mem_cons.mp hq with rfl | hq
          · exact hyx
          · exact le_trans (hle q hq) hyx

/-- Claim C6: per event the RuleEvaluator emits at most one non-burst
    alert (its decision is an Option, none when no candidate exists), and
    an emitted alert is the candidate of highest confidence among the
    DominantFamily and TagRoute candidates in declaration order, every
    earlier candidate being strictly weaker and every later one no
    stronger, so exact confidence ties go to the earlier-declared rule. -/
theorem evaluator_precedence (rules : List AlertRule) (ev : ScoredEvent) :
    (allCandidates rules ev = [] → evaluateNonBurst rules ev = none) ∧
    (∀ p, evaluateNonBurst rules ev = some p →
      ∃ l1 l2, allCandidates rules ev = l1 ++ p :: l2 ∧
        (∀ q ∈ l1, q.2 < p.2) ∧ (∀ q ∈ l2, q.2 ≤ p.2)) := by
  constructor
  · intro h
    simp [evaluateNonBurst, h, selectBest]
  · intro p h
    exact selectBest_spec _ p h

/-- Witness for claim C6: two DominantFamily rules matching with exactly
    equal confidence; the earlier-declared rule A wins. -/
theorem evaluator_precedence_witness :
    ∃ l1 l2,
      allCandidates
        [AlertRule.dominantFamily "A" ["Voltage"] 40 .warning "power",
         AlertRule.dominantFamily "B" ["Voltage"] 40 .warning "power2"]
        ⟨0, "D", .run, 1, none, [("Voltage", 47)], []⟩ = l1 ++ ("A", 7 / 60) :: l2 ∧
      (∀ q ∈ l1, q.2 < (("A", 7 / 60) : String × Rat).2) ∧
      (∀ q ∈ l2, q.2 ≤ (("A", 7 / 60) : String × Rat).2) :=
  (evaluator_precedence
      [AlertRule.dominantFamily "A" ["Voltage"] 40 .warning "power",
       AlertRule.dominantFamily "B" ["Voltage"] 40 .warning "power2"]
      ⟨0, "D", .run, 1, none, [("Voltage", 47)], []⟩).2 ("A", 7 / 60)
    (by norm_num [evaluateNonBurst, allCandidates, ruleCandidates, ruleCandidate,
      selectBest, dfActual, attrLookup, dfMatches, dfConfidence,
      clampUnit, hasTagMatch, min_def, max_def, List.find?, List.filterMap])

/-- Claim C7: the TagRouter resolves any two raw tags that normalize
    identically (trim surrounding whitespace, case-fold) to the same
    routing result, and in particular a tag Bearing_Wear with trailing
    space resolves like bearing_wear against any catalogue. -/
theorem tag_router_normalized :
    (∀ (rules : List AlertRule) (t1 t2 : String),
        normalizeTag t1 = normalizeTag t2 → routeTag rules t1 = routeTag rules t2) ∧
    (∀ rules : List AlertRule,
        routeTag rules "Bearing_Wear " = routeTag rules "bearing_wear") := by
  have hgen : ∀ (rules : List AlertRule) (t1 t2 : String),
      normalizeTag t1 = normalizeTag t2 → routeTag rules t1 = routeTag rules t2 := by
    intro rules t1 t2 h
    simp only [routeTag, h]
  exact ⟨hgen, fun rules => hgen rules "Bearing_Wear " "bearing_wear" (by decide)⟩

/-- Witness for claim C7: the normalization congruence applied to a
    concrete one-rule catalogue and the documented tag pair. -/
theorem tag_router_normalized_witness :
    routeTag [AlertRule.tagRoute "r1" "bearing_wear" "maintenance" .warning "bearing wear"]
        "Bearing_Wear " =
      routeTag [AlertRule.tagRoute "r1" "bearing_wear" "maintenance" .warning "bearing wear"]
        "bearing_wear" :=
  tag_router_normalized.1
    [AlertRule.tagRoute "r1" "bearing_wear" "maintenance" .warning "bearing wear"]
    "Bearing_Wear " "bearing_wear" (by decide)

/-- The window check passes exactly on a positive declared window. -/
theorem windowViolations_nil_iff (w : Option Int) :
    windowViolations w = [] ↔ ∃ v, w = some v ∧ 0 < v := by
  cases w with
  | none => simp [windowViolations]
  | some v =>
    by_cases h : v ≤ 0
    · simp [windowViolations, h]
    · simp [windowViolations, h]
      omega

/-- The min_anomalies check passes exactly on a declared value of at least
    two. -/
theorem minAnomaliesViolations_nil_iff (m : Option Nat) :
    minAnomaliesViolations m = [] ↔ ∃ v, m = some v ∧ 2 ≤ v := by
  cases m with
  | none => simp [minAnomaliesViolations]
  | some v =>
    by_cases h : v < 2
    · simp [minAnomaliesViolations, h]
    · simp [minAnomaliesViolations, h]
      omega

/-- The families check passes exactly on a declared non-empty family
    list. -/
theorem familiesViolations_nil_iff (f : Option (List String)) :
    familiesViolations f = [] ↔ ∃ fams, f = some fams ∧ fams ≠ [] := by
  cases f with
  | none => simp [familiesViolations]
  | some fams => by_cases h : fams = [] <;> simp [familiesViolations, h]

/-- The min_percent check passes exactly on a declared threshold in the
    half-open unit-percent range. -/
theorem minPercentViolations_nil_iff (p : Option Rat) :
    minPercentViolations p = [] ↔ ∃ v, p = some v ∧ 0 < v ∧ v ≤ 100 := by
  cases p with
  | none => simp [minPercentViolations]
  | some v => by_cases h : 0 < v ∧ v ≤ 100 <;> simp [minPercentViolations, h]

/-- The tag check passes exactly on a declared non-empty tag. -/
theorem tagViolations_nil_iff (t : Option String) :
    tagViolations t = [] ↔ ∃ v, t = some v ∧ v ≠ "" := by
  cases t with
  | none => simp [tagViolations]
  | some v => by_cases h : v = "" <;> simp [tagViolations, h]

/-- The route check passes exactly on a declared non-empty route. -/
theorem routeViolations_nil_iff (rt : Option String) :
    routeViolations rt = [] ↔ ∃ v, rt = some v ∧ v ≠ "" := by
  cases rt with
  | none => simp [routeViolations]
  | some v => by_cases h : v = "" <;> simp [routeViolations, h]

/-- The severity check passes exactly on one of the three literals. -/
theorem severityViolations_nil_iff (s : Option String) (k : String) :
    severityViolations s k = [] ↔ SeverityOk s := by
  cases s with
  | none => simp [severityViolations, SeverityOk]
  | some v =>
    by_cases h : v = "INFO" ∨ v = "WARNING" ∨ v = "CRITICAL" <;>
      simp [severityViolations, SeverityOk, h]

/-- The cause check passes exactly when a cause is declared. -/
theorem causeViolations_nil_iff (c : Option String) (k : String) :
    causeViolations c k = [] ↔ ∃ v, c = some v := by
  cases c <;> simp [causeViolations]

/-- The per-rule checker accepts exactly the rules valid per the
    specification. -/
theorem ruleViolations_nil_iff (r : RawRule) :
    ruleViolations r = [] ↔ RuleValid r := by
  by_cases h1 : r.kind = "burst"
  · simp [ruleViolations, RuleValid, h1, windowViolations_nil_iff,
      minAnomaliesViolations_nil_iff, severityViolations_nil_iff, causeViolations_nil_iff]
  · by_cases h2 : r.kind = "dominant_family"
    · simp [ruleViolations, RuleValid, h1, h2, familiesViolations_nil_iff,
        minPercentViolations_nil_iff, severityViolations_nil_iff, causeViolations_nil_iff]
    · by_cases h3 : r.kind = "tag_route"
      · simp [ruleViolations, RuleValid, h1, h2, h3, tagViolations_nil_iff,
          routeViolations_nil_iff, severityViolations_nil_iff, causeViolations_nil_iff]
      · simp [ruleViolations, RuleValid, h1, h2, h3]

/-- A valid raw rule always builds a catalogue entry. -/
theorem buildRule_of_valid (r : RawRule) (h : RuleValid r) :
    ∃ ar, buildRule r = some ar := by
  rcases h with ⟨hk, ⟨w, hw, _⟩, ⟨m, hm, _⟩, ⟨v, hv, hvs⟩, ⟨c, hc⟩⟩ |
    ⟨hk, ⟨fams, hf, _⟩, ⟨p, hp, _⟩, ⟨v, hv, hvs⟩, ⟨c, hc⟩⟩ |
    ⟨hk, ⟨t, ht, _⟩, ⟨rt, hrt, _⟩, ⟨v, hv, hvs⟩, ⟨c, hc⟩⟩
  · rcases hvs with rfl | rfl | rfl <;>
      exact Option.isSome_iff_exists.mp
        (by simp [buildRule, hk, hw, hm, hv, hc, sevOfString])
  · have hk1 : r.kind ≠ "burst" := by rw [hk]; decide
    rcases hvs with rfl | rfl | rfl <;>
      exact Option.isSome_iff_exists.mp
        (by simp [buildRule, hk1, hk, hf, hp, hv, hc, sevOfString])
  · have hk1 : r.kind ≠ "burst" := by rw [hk]; decide
    have hk2 : r.kind ≠ "dominant_family" := by rw [hk]; decide
    rcases hvs with rfl | rfl | rfl <;>
      exact Option.isSome_iff_exists.mp
        (by simp [buildRule, hk1, hk2, hk, ht, hrt, hv, hc, sevOfString])

/-- Building every element of a fully valid rule list drops nothing. -/
theorem filterMap_buildRule_length :
    ∀ rules : List RawRule, (∀ r ∈ rules, RuleValid r) →
      (rules.filterMap buildRule).length = rules.length := by
  intro rules
  induction rules with
  | nil => intro _; rfl
  | cons r rs ih =>
    intro h
    obtain ⟨ar, har⟩ := buildRule_of_valid r (h r (List.mem_cons_self r rs))
    simp only [List.filterMap_cons, har, List.length_cons]
    rw [ih (fun x hx => h x (List.mem_cons_of_mem r hx))]

/-- Claim C8: the loader either returns the complete validated catalogue,
    when every declared rule satisfies the constraints of its kind, or a
    configuration error that carries every violation of every rule, indexed
    by rule position; a failure never carries a catalogue at all. -/
theorem loader_all_or_nothing (rules : List RawRule) :
    ((∀ r ∈ rules, RuleValid r) →
      loadRules rules = .ok (rules.filterMap buildRule) ∧
      (rules.filterMap buildRule).length = rules.length) ∧
    ((∃ r ∈ rules, ¬ RuleValid r) →
      ∃ errs, loadRules rules = .error errs ∧ errs ≠ [] ∧
        ∀ (i : Nat) (h : i < rules.length) (m : String),
          m ∈ ruleViolations (rules.get ⟨i, h⟩) → (i, m) ∈ errs) := by
  constructor
  · intro hval
    have herrs : (rules.enum.map
        (fun p => (ruleViolations p.2).map (fun m => (p.1, m)))).flatten = [] := by
      rw [List.flatten_eq_nil_iff]
      intro x hx
      rcases List.mem_map.mp hx with ⟨p, hp, rfl⟩
      have hr : p.2 ∈ rules :=
        List.getElem?_mem (List.mem_enum_iff_getElem?.mp hp)
      rw [(ruleViolations_nil_iff p.2).mpr (hval p.2 hr)]
      rfl
    exact ⟨by simp [loadRules, herrs], filterMap_buildRule_length rules hval⟩
  · rintro ⟨r, hr, hbad⟩
    have hmem : ∀ (i : Nat) (h : i < rules.length) (m : String),
        m ∈ ruleViolations (rules.get ⟨i, h⟩) →
        (i, m) ∈ (rules.enum.map
          (fun p => (ruleViolations p.2).map (fun mm => (p.1, mm)))).flatten := by
      intro i h m hm
      rw [List.mem_flatten]
      refine ⟨(ruleViolations (rules.get ⟨i, h⟩)).map (fun mm => (i, mm)), ?_, ?_⟩
      · refine List.mem_map.mpr ⟨(i, rules.get ⟨i, h⟩), ?_, rfl⟩
        exact List.mem_enum_iff_getElem?.mpr (by simp [List.getElem?_eq_getElem h])
      · exact List.mem_map.mpr ⟨m, hm, rfl⟩
    obtain ⟨⟨i, hi⟩, hget⟩ := List.mem_iff_get.mp hr
    have hviol : ruleViolations r ≠ [] :=
      fun hnil => hbad ((ruleViolations_nil_iff r).mp hnil)
    obtain ⟨m, hm⟩ := List.exists_mem_of_ne_nil _ hviol
    have hne : (rules.enum.map
        (fun p => (ruleViolations p.2).map (fun mm => (p.1, mm)))).flatten ≠ [] := by
      intro hnil
      have := hmem i hi m (by rw [hget]; exact hm)
      rw [hnil] at this
      exact absurd this (List.not_mem_nil _)
    have hie : (rules.enum.map
        (fun p => (ruleViolations p.2).map (fun mm => (p.1, mm)))).flatten.isEmpty = false := by
      simp [List.isEmpty_iff, hne]
    exact ⟨_, by simp [loadRules, hie], hne, hmem⟩

/-- Witness for claim C8: a one-rule valid configuration loads completely,
    and a one-rule configuration with a non-positive window fails with a
    non-empty indexed violation list. -/
theorem loader_all_or_nothing_witness :
    (loadRules [⟨"burst", "b1", some 10, some 3, none, none, none, none,
        some "WARNING", some "cluster"⟩] =
      .ok ([(⟨"burst", "b1", some 10, some 3, none, none, none, none,
        some "WARNING", some "cluster"⟩ : RawRule)].filterMap buildRule) ∧
     ([(⟨"burst", "b1", some 10, some 3, none, none, none, none,
        some "WARNING", some "cluster"⟩ : RawRule)].filterMap buildRule).length =
       [(⟨"burst", "b1", some 10, some 3, none, none, none, none,
        some "WARNING", some "cluster"⟩ : RawRule)].length) ∧
    (∃ errs,
      loadRules [⟨"burst", "b2", some 0, none, none, none, none, none, none, none⟩] =
        .error errs ∧ errs ≠ [] ∧
      ∀ (i : Nat)
        (h : i < [(⟨"burst", "b2", some 0, none, none, none, none, none, none,
          none⟩ : RawRule)].length) (m : String),
        m ∈ ruleViolations
          ([(⟨"burst", "b2", some 0, none, none, none, none, none, none,
            none⟩ : RawRule)].get ⟨i, h⟩) → (i, m) ∈ errs) :=
  ⟨(loader_all_or_nothing _).1
    (by
      intro r hrm
      rcases List.mem_singleton.mp hrm with rfl
      exact Or.inl ⟨rfl, ⟨10, rfl, by norm_num⟩, ⟨3, rfl, by norm_num⟩,
        ⟨"WARNING", rfl, Or.inr (Or.inl rfl)⟩, ⟨"cluster", rfl⟩⟩),
   (loader_all_or_nothing _).2
    ⟨⟨"burst", "b2", some 0, none, none, none, none, none, none, none⟩,
     List.mem_singleton.mpr rfl,
     by
      rintro (⟨_, ⟨w, hw, hpos⟩, _⟩ | ⟨hk, _⟩ | ⟨hk, _⟩)
      · injection hw with hw0
        omega
      · exact absurd hk (by decide)
      · exact absurd hk (by decide)⟩⟩

/-- The one-pass counting loop of summarizeHealth counts the true and the
    false entries. -/
theorem count_foldl (l : List (String × Bool)) :
    ∀ (p q : Nat),
      l.foldl (fun (pm : Nat × Nat) e => if e.2 then (pm.1 + 1, pm.2) else (pm.1, pm.2 + 1))
          (p, q) =
        (p + (l.filter (fun e => e.2)).length, q + (l.filter (fun e => !e.2)).length) := by
  induction l with
  | nil => intro p q; simp
  | cons e es ih =>
    intro p q
    by_cases he : e.2 <;> simp [List.filter_cons, he, ih, Prod.ext_iff] <;> omega

/-- The present and missing entries partition the artifact record. -/
theorem filter_length_split (l : List (String × Bool)) :
    (l.filter (fun e => e.2)).length + (l.filter (fun e => !e.2)).length = l.length := by
  induction l with
  | nil => rfl
  | cons e es ih =>
    by_cases he : e.2 <;>
      simp only [List.filter_cons, he, Bool.not_true, Bool.not_false, if_true, if_false,
        Bool.false_eq_true, Bool.true_eq_false, List.length_cons] <;>
      omega

/-- Claim C9: for every health payload and clock value, summarizeHealth
    returns present equal to the number of true artifact entries, missing
    equal to the number of false ones, and total their sum, which is the
    number of entries; OverviewPage computes the same three counts from the
    same payload. -/
theorem health_counts_agree (parseIso : String → Option Int) (data : Health) (nowMs : Int) :
    (summarizeHealth parseIso data nowMs).present =
      (data.artifacts_present.filter (fun e => e.2)).length ∧
    (summarizeHealth parseIso data nowMs).missing =
      (data.artifacts_present.filter (fun e => !e.2)).length ∧
    (summarizeHealth parseIso data nowMs).present +
        (summarizeHealth parseIso data nowMs).missing =
      (summarizeHealth parseIso data nowMs).total ∧
    (summarizeHealth parseIso data nowMs).total = data.artifacts_present.length ∧
    overviewPresent data = (summarizeHealth parseIso data nowMs).present ∧
    overviewMissing data = (summarizeHealth parseIso data nowMs).missing ∧
    overviewTotal data = (summarizeHealth parseIso data nowMs).total := by
  have hc := count_foldl data.artifacts_present 0 0
  have hsplit := filter_length_split data.artifacts_present
  have hfle : (data.artifacts_present.filter (fun e => e.2)).length ≤
      data.artifacts_present.length := List.length_filter_le _ _
  simp only [summarizeHealth, overviewPresent, overviewMissing, overviewTotal, hc]
  refine ⟨?_, ?_, ?_, ?_, ?_, ?_, ?_⟩ <;> first | omega | trivial

/-- The decimal rendering of a status code is never empty. -/
theorem natToChars_ne_nil (n : Nat) : natToChars n ≠ [] := by
  unfold natToChars
  by_cases h : n = 0
  · simp [h]
  · simp [h, Nat.digits_ne_nil_iff_ne_zero]

/-- The decimal rendering of a status code contains no whitespace. -/
theorem natToChars_not_ws (n : Nat) : ∀ c ∈ natToChars n, isWsChar c = false := by
  intro c hc
  unfold natToChars at hc
  by_cases h : n = 0
  · rw [if_pos h] at hc
    simp only [List.mem_singleton] at hc
    subst hc
    decide
  · rw [if_neg h] at hc
    rcases List.mem_map.mp hc with ⟨d, hd, rfl⟩
    have hdm : d ∈ Nat.digits 10 n := List.mem_reverse.mp hd
    have hlt : d < 10 := Nat.digits_lt_base (by norm_num) hdm
    interval_cases d <;> decide

/-- dropWhile keeps a list whose head is not whitespace. -/
theorem dropWhile_ws_keep (cs : List Char) (c0 : Char) (h : isWsChar c0 = false) :
    (c0 :: cs).dropWhile isWsChar = c0 :: cs := by
  simp [List.dropWhile_cons, h]

/-- Right-trimming removes only a suffix: everything up to a trailing
    non-whitespace block survives. -/
theorem trimRightW_keep (pre mid suf : List Char) (hmne : mid ≠ [])
    (hmnw : ∀ c ∈ mid, isWsChar c = false) :
    ∃ suf2, trimRightW ((pre ++ mid) ++ suf) = (pre ++ mid) ++ suf2 := by
  unfold trimRightW
  rw [List.reverse_append, List.reverse_append]
  obtain ⟨c0, t, hrev⟩ : ∃ c0 t, mid.reverse = c0 :: t := by
    cases hr : mid.reverse with
    | nil => exact absurd (List.reverse_eq_nil_iff.mp hr) hmne
    | cons a b => exact ⟨a, b, rfl⟩
  have hc0 : isWsChar c0 = false :=
    hmnw c0 (List.mem_reverse.mp (hrev ▸ List.mem_cons_self c0 t))
  rw [List.dropWhile_append]
  by_cases hsuf : (suf.reverse.dropWhile isWsChar).isEmpty
  · rw [if_pos hsuf]
    rw [hrev, List.cons_append, dropWhile_ws_keep _ _ hc0, ← List.cons_append, ← hrev]
    refine ⟨[], ?_⟩
    simp
  · rw [if_neg hsuf]
    refine ⟨(suf.reverse.dropWhile isWsChar).reverse, ?_⟩
    rw [List.reverse_append, List.reverse_append, List.reverse_reverse, List.reverse_reverse]

/-- The trimmed error message of a non-ok response still carries the
    decimal status code right after the HTTP prefix. -/
theorem httpErrorMessage_contains_status (res : HttpResponse) :
    ∃ a b, httpErrorMessage res = a ++ natToChars res.status ++ b := by
  unfold httpErrorMessage trimChars
  have h1 : ("HTTP ".data ++ (natToChars res.status ++ (" ".data ++ (res.statusText
      ++ (" ".data ++ res.bodyText))))).dropWhile isWsChar =
      "HTTP ".data ++ (natToChars res.status ++ (" ".data ++ (res.statusText
      ++ (" ".data ++ res.bodyText)))) := by
    rw [show ("HTTP ".data : List Char) = 'H' :: "TTP ".data from rfl]
    rw [List.cons_append]
    rw [dropWhile_ws_keep _ 'H' (by decide)]
  rw [h1]
  rw [show "HTTP ".data ++ (natToChars res.status ++ (" ".data ++ (res.statusText
      ++ (" ".data ++ res.bodyText)))) =
    ("HTTP ".data ++ natToChars res.status) ++ (" ".data ++ (res.statusText
      ++ (" ".data ++ res.bodyText))) from by rw [List.append_assoc]]
  obtain ⟨suf2, hs⟩ := trimRightW_keep "HTTP ".data (natToChars res.status)
    (" ".data ++ (res.statusText ++ (" ".data ++ res.bodyText)))
    (natToChars_ne_nil _) (natToChars_not_ws _)
  exact ⟨"HTTP ".data, suf2, by rw [hs]⟩

/-- Claim C10: fetchJson rejects every non-ok response with an error whose
    message carries the decimal HTTP status code, and it resolves only with
    a value the zod schema validated from the parsed response body: an ok
    result implies the body parsed as JSON and passed the schema. -/
theorem fetch_json_validates {α : Type} (schema : Json → Option α) (res : HttpResponse) :
    (res.ok = false →
      ∃ a b, fetchJson schema res = .error (a ++ natToChars res.status ++ b)) ∧
    (∀ v, fetchJson schema res = .ok v →
      res.ok = true ∧ ∃ j, res.jsonBody = some j ∧ schema j = some v) := by
  constructor
  · intro hok
    obtain ⟨a, b, hab⟩ := httpErrorMessage_contains_status res
    refine ⟨a, b, ?_⟩
    rw [← hab]
    simp [fetchJson, hok]
  · intro v hv
    unfold fetchJson at hv
    by_cases hok : res.ok = true
    · simp only [if_pos hok] at hv
      cases hj : res.jsonBody with
      | none =>
        rw [hj] at hv
        replace hv : (Except.error ("invalid json body".data) : Except (List Char) α) =
            .ok v := hv
        exact absurd hv (by simp)
      | some j =>
        rw [hj] at hv
        replace hv : (match schema j with
            | some u => (Except.ok u : Except (List Char) α)
            | none => Except.error ("zod validation failed".data)) = .ok v := hv
        cases hs : schema j with
        | none =>
          rw [hs] at hv
          replace hv : (Except.error ("zod validation failed".data) :
              Except (List Char) α) = .ok v := hv
          exact absurd hv (by simp)
        | some u =>
          rw [hs] at hv
          replace hv : (Except.ok u : Except (List Char) α) = .ok v := hv
          simp only [Except.ok.injEq] at hv
          subst hv
          exact ⟨hok, j, rfl, hs⟩
    · simp only [Bool.not_eq_true] at hok
      simp only [hok, Bool.false_eq_true, if_false] at hv
      exact absurd hv (by simp)

/-- Witness for claim C10: a 503 response is rejected with the status code
    in the message, and an ok response with a null JSON body resolves only
    through the identity schema. -/
theorem fetch_json_validates_witness :
    (∃ a b, fetchJson (fun j => some j)
        ⟨false, 503, "Service Unavailable".data, "".data, none⟩ =
      Except.error (a ++ natToChars
        (⟨false, 503, "Service Unavailable".data, "".data, none⟩ : HttpResponse).status
        ++ b)) ∧
    ((⟨true, 200, "OK".data, "".data, some Json.null⟩ : HttpResponse).ok = true ∧
      ∃ j, (⟨true, 200, "OK".data, "".data, some Json.null⟩ : HttpResponse).jsonBody =
          some j ∧ (fun j => some j) j = some Json.null) :=
  ⟨(fetch_json_validates (fun j => some j)
      ⟨false, 503, "Service Unavailable".data, "".data, none⟩).1 rfl,
   (fetch_json_validates (fun j => some j)
      ⟨true, 200, "OK".data, "".data, some Json.null⟩).2 Json.null rfl⟩

end ITAP
